import Mathlib

/-!
Verification of the license lifecycle manager in
`src/main/license-handler.ts` (class `LicenseHandler`).

Shallow embedding conventions:
* Timestamps (ISO date strings in the source, compared via `Date` objects
  and `Date.now()`) are modelled as integer milliseconds (`Int`).  The
  source computes `hoursSinceVerification` with a floating-point division
  `(Date.now() - lastVerified.getTime()) / (1000 * 60 * 60)` and compares
  it with the literal `72`; at integer-millisecond inputs that comparison
  agrees exactly with the integer comparison `elapsedMs < 72 * 3600000`
  (a double division has relative error at most 2⁻⁵³, while quotients at
  adjacent millisecond inputs differ from 72 by at least 1/3600000), so
  the model uses the exact integer comparison.
* The single network round trip inside `verifyLicense` is modelled by a
  `VerifyNet` value describing how `axios.post` resolved; the effects of
  the call (in-memory state, persisted record, whether the server was
  contacted, whether `deactivateLicense` ran) are collected in a
  `VerifyOutcome` record.
* JavaScript `x || d` on an optional string (absent or empty → default)
  is modelled by `jsOr`.
* The persisted file is tracked at record granularity for the state
  machine (`Option StoredLicense`); the byte-level encryption pipeline
  (`encrypt` / `decrypt` / `saveStoredLicense` / `loadStoredLicense`) is
  modelled separately below over an abstract AES block permutation.
-/

namespace LicenseHandler

/-- Mirror of the `LicenseInfo` interface: the server-owned license data
cached locally.  `expires_at` (an ISO string in the source, consumed only
through `new Date(...)`) is modelled as parsed integer milliseconds. -/
structure LicenseInfo where
  license_key : String
  customer_name : String
  customer_email : String
  plan_price : Int
  plan_type : String
  features : List String
  expires_at : Int
  days_remaining : Int
  activated_at : Option Int
deriving DecidableEq

/-- Mirror of the `StoredLicense` interface: the persisted record. -/
structure StoredLicense where
  key : String
  hardwareId : String
  licenseInfo : LicenseInfo
  lastVerified : Int
  activatedAt : Int
deriving DecidableEq

/-- JavaScript `m || d` for a message that may be absent (`undefined`) or
empty; both are falsy and fall back to the default. -/
def jsOr (m : Option String) (d : String) : String :=
  match m with
  | none => d
  | some s => if s = "" then d else s

/-- Outcome of the `axios.post(.../license/verify, ...)` round trip:
`success` is a 2xx response with `success: true`; `rejected` is a 2xx
response with `success: false` (and optional `message`); `invalid404` is
a thrown error whose response has status 404 and body code `"INVALID"`;
`unreachable` is any other thrown error (timeout, connection failure, or
an HTTP error without the distinguished 404/INVALID shape). -/
inductive VerifyNet where
  | success (data : LicenseInfo)
  | rejected (message : Option String)
  | invalid404 (message : Option String)
  | unreachable
deriving DecidableEq

/-- Shape of the value `verifyLicense` resolves with. -/
structure VerifyResult where
  valid : Bool
  message : String
  info : Option LicenseInfo
deriving DecidableEq

/-- Result of `verifyLicense` together with its effects: the in-memory
`storedLicense` after the call, the persisted record after the call,
whether the server verify endpoint was contacted, and whether
`deactivateLicense` was triggered. -/
structure VerifyOutcome where
  result : VerifyResult
  license : Option StoredLicense
  file : Option StoredLicense
  serverCalled : Bool
  deactivated : Bool
deriving DecidableEq

/-- Offline grace window: 72 hours, in milliseconds. -/
def graceMs : Int := 72 * 60 * 60 * 1000

/-- Embedding of `LicenseHandler.verifyLicense(silent)`.  `stored` and
`fileBefore` are the in-memory and persisted state when the call starts,
`currentHardwareId` is what `getHardwareId()` returns, `now` the current
time in milliseconds, and `net` how the server call resolved (consulted
only when both local checks pass). -/
def verifyLicense (stored : Option StoredLicense) (fileBefore : Option StoredLicense)
    (currentHardwareId : String) (now : Int) (net : VerifyNet) (silent : Bool) :
    VerifyOutcome :=
  match stored with
  | none =>
      ⟨⟨false, "No license found", none⟩, none, fileBefore, false, false⟩
  | some lic =>
      if lic.hardwareId ≠ currentHardwareId then
        ⟨⟨false, "License is bound to different hardware", none⟩,
          some lic, fileBefore, false, false⟩
      else if lic.licenseInfo.expires_at < now then
        ⟨⟨false, "License has expired", none⟩, some lic, fileBefore, false, false⟩
      else
        match net with
        | .success data =>
            let lic' : StoredLicense :=
              { lic with licenseInfo := data, lastVerified := now }
            ⟨⟨true, "License is valid", some data⟩, some lic', some lic', true, false⟩
        | .rejected msg =>
            if silent then
              ⟨⟨false, jsOr msg "License verification failed", none⟩,
                some lic, fileBefore, true, false⟩
            else
              ⟨⟨false, jsOr msg "License verification failed", none⟩,
                none, none, true, true⟩
        | .invalid404 msg =>
            ⟨⟨false, jsOr msg "Invalid license", none⟩,
              some lic, fileBefore, true, false⟩
        | .unreachable =>
            if now - lic.lastVerified < graceMs then
              ⟨⟨true, "License valid (offline mode)", some lic.licenseInfo⟩,
                some lic, fileBefore, true, false⟩
            else
              ⟨⟨false, "Unable to verify license. Please connect to the internet.",
                  none⟩,
                some lic, fileBefore, true, false⟩

/-- Shape of the value `deactivateLicense` resolves with, together with
the in-memory and persisted state after the call. -/
structure DeactivateOutcome where
  success : Bool
  message : String
  license : Option StoredLicense
  file : Option StoredLicense
deriving DecidableEq

/-- Embedding of `LicenseHandler.deactivateLicense()`.  `serverOk` is
whether the best-effort `/license/deactivate` notification succeeded; the
source catches and logs its failure, so the outcome never depends on it.
With no in-memory license the source returns early without touching the
file; otherwise it clears the in-memory record and unlinks the file. -/
def deactivateLicense (stored : Option StoredLicense) (fileBefore : Option StoredLicense)
    (_serverOk : Bool) : DeactivateOutcome :=
  match stored with
  | none => ⟨false, "No license found", none, fileBefore⟩
  | some _ => ⟨true, "License deactivated", none, none⟩

/-- Embedding of `LicenseHandler.hasFeature(feature)`:
`storedLicense?.licenseInfo?.features?.includes(feature) || false`. -/
def hasFeature (stored : Option StoredLicense) (feature : String) : Bool :=
  match stored with
  | none => false
  | some lic => lic.licenseInfo.features.contains feature

/-- Embedding of `LicenseHandler.needsRenewal(daysThreshold)`. -/
def needsRenewal (stored : Option StoredLicense) (daysThreshold : Int) : Bool :=
  match stored with
  | none => false
  | some lic => lic.licenseInfo.days_remaining ≤ daysThreshold

/-- The source declares `needsRenewal(daysThreshold = 30)`: the default
threshold is 30 days. -/
def needsRenewalDefault (stored : Option StoredLicense) : Bool :=
  needsRenewal stored 30

/-!
Byte-level model of the storage pipeline.

`encrypt(text)` in the source is AES-256-CBC with a scrypt-derived key, a
fixed all-zero 16-byte IV, PKCS#7 padding (applied implicitly by
`cipher.update`/`cipher.final`), and hex output encoding; `decrypt`
inverts it and throws on malformed input.  The AES permutation itself is
library code (`node:crypto`), so it is abstracted as a block function
`E : List Nat → List Nat` (and its inverse `D`) on 16-byte blocks; the
CBC chaining, the padding, and the hex encoding — the parts fixed by the
repository's usage — are modelled concretely.  Plaintext is the UTF-8
byte sequence of the JSON string, each byte a `Nat < 256`.
-/

/-- Bytewise XOR of two equal-length blocks (CBC chaining step). -/
def byteXor (a b : List Nat) : List Nat :=
  List.zipWith (· ^^^ ·) a b

/-- PKCS#7 padding to a multiple of the 16-byte AES block size, as
applied by `createCipheriv('aes-256-cbc', ...)` before encryption. -/
def pkcs7pad (bs : List Nat) : List Nat :=
  let p := 16 - bs.length % 16
  bs ++ List.replicate p p

/-- PKCS#7 unpadding with validity checks, as performed by
`decipher.final`: the last byte `p` must satisfy `1 ≤ p ≤ 16`, not exceed
the length, and all `p` trailing bytes must equal `p`; otherwise the
decipher throws (`none`). -/
def pkcs7unpad (bs : List Nat) : Option (List Nat) :=
  match bs.getLast? with
  | none => none
  | some p =>
      if 1 ≤ p ∧ p ≤ 16 ∧ p ≤ bs.length ∧
          (bs.drop (bs.length - p)).all (fun x => x == p) then
        some (bs.take (bs.length - p))
      else none

/-- Split a byte sequence into consecutive 16-byte blocks (the last block
may be short if the length is not a multiple of 16). -/
def chunk16 (bs : List Nat) : List (List Nat) :=
  match bs with
  | [] => []
  | b :: rest => ((b :: rest).take 16) :: chunk16 ((b :: rest).drop 16)
termination_by bs.length
decreasing_by simp; omega

/-- CBC-mode encryption of a block list: each plaintext block is XORed
with the previous ciphertext block (initially the IV) before the block
permutation `E` is applied. -/
def cbcEncrypt (E : List Nat → List Nat) : List Nat → List (List Nat) → List (List Nat)
  | _, [] => []
  | prev, b :: bs => E (byteXor b prev) :: cbcEncrypt E (E (byteXor b prev)) bs

/-- CBC-mode decryption with the inverse block permutation `D`. -/
def cbcDecrypt (D : List Nat → List Nat) : List Nat → List (List Nat) → List (List Nat)
  | _, [] => []
  | prev, c :: cs => byteXor (D c) prev :: cbcDecrypt D c cs

/-- Lower-case hex digit for a value below 16 (node's `'hex'` output
encoding uses lower case). -/
def hexDigit (n : Nat) : Char :=
  if n < 10 then Char.ofNat (48 + n) else Char.ofNat (87 + n)

/-- Value of a hex digit character; `none` on a non-hex character, which
makes `Buffer.from(s, 'hex')`-style decoding fail. -/
def hexVal (c : Char) : Option Nat :=
  if 48 ≤ c.toNat ∧ c.toNat ≤ 57 then some (c.toNat - 48)
  else if 97 ≤ c.toNat ∧ c.toNat ≤ 102 then some (c.toNat - 87)
  else none

/-- Two-character hex encoding of one byte. -/
def hexEncodeByte (b : Nat) : List Char :=
  [hexDigit (b / 16), hexDigit (b % 16)]

/-- Hex encoding of a byte sequence (the `'hex'` output of
`cipher.update`/`cipher.final`). -/
def hexEncode (bs : List Nat) : List Char :=
  List.flatten (bs.map hexEncodeByte)

/-- Hex decoding; fails on odd length or non-hex characters. -/
def hexDecode : List Char → Option (List Nat)
  | [] => some []
  | [_] => none
  | c1 :: c2 :: rest => do
      let h ← hexVal c1
      let l ← hexVal c2
      let r ← hexDecode rest
      pure ((16 * h + l) :: r)

/-- The fixed IV: `Buffer.alloc(16, 0)`. -/
def theIV : List Nat :=
  List.replicate 16 0

/-- Embedding of `LicenseHandler.encrypt(text)`: pad, CBC-encrypt with
the zero IV, hex-encode.  `E` is the AES-256 block permutation under the
scrypt-derived key. -/
def encrypt (E : List Nat → List Nat) (text : List Nat) : List Char :=
  hexEncode (List.flatten (cbcEncrypt E theIV (chunk16 (pkcs7pad text))))

/-- Embedding of `LicenseHandler.decrypt(encrypted)`: hex-decode,
CBC-decrypt with the zero IV, unpad; any failure (odd or non-hex input,
length not a block multiple, bad padding) is a thrown `decipher` error,
modelled as `none`. -/
def decrypt (D : List Nat → List Nat) (ct : List Char) : Option (List Nat) :=
  match hexDecode ct with
  | none => none
  | some bytes =>
      if bytes.length % 16 = 0 then
        pkcs7unpad (List.flatten (cbcDecrypt D theIV (chunk16 bytes)))
      else none

/-- Embedding of `LicenseHandler.saveStoredLicense` for a present record:
the file contents are `encrypt(JSON.stringify(record))`.  `ser` is the
byte sequence of the JSON serialization. -/
def saveStoredLicense (E : List Nat → List Nat) (ser : StoredLicense → List Nat)
    (record : StoredLicense) : List Char :=
  encrypt E (ser record)

/-- Embedding of `LicenseHandler.loadStoredLicense`: a missing file, a
failed decrypt, or a failed `JSON.parse` (`des` returning `none`) all
leave `storedLicense = null`; nothing is thrown to the caller. -/
def loadStoredLicense (D : List Nat → List Nat) (des : List Nat → Option StoredLicense)
    (file : Option (List Char)) : Option StoredLicense :=
  match file with
  | none => none
  | some ct =>
      match decrypt D ct with
      | none => none
      | some bytes => des bytes

/-- Concrete license data used to instantiate the theorems below.  The
expiry timestamp is 1000 ms and the last verification 1000 ms, so time
1000 sits exactly on the expiry boundary with zero offline elapsed
time. -/
def sampleInfo : LicenseInfo :=
  { license_key := "ABC-123"
    customer_name := "Ada"
    customer_email := "ada@example.com"
    plan_price := 99
    plan_type := "pro"
    features := ["export"]
    expires_at := 1000
    days_remaining := 10
    activated_at := some 0 }

/-- Concrete stored record bound to hardware fingerprint `"H1"`. -/
def sampleLicense : StoredLicense :=
  { key := "ABC-123"
    hardwareId := "H1"
    licenseInfo := sampleInfo
    lastVerified := 1000
    activatedAt := 0 }

/-- Serialization used to instantiate the round-trip theorem at a
concrete record (the JSON encoder itself is library code, abstracted in
the theorem as a `ser`/`des` pair). -/
def sampleSer (_ : StoredLicense) : List Nat :=
  [123, 34, 107, 101, 121, 34, 125]

/-- Matching deserializer for `sampleSer` on the sample record. -/
def sampleDes (bs : List Nat) : Option StoredLicense :=
  if bs = [123, 34, 107, 101, 121, 34, 125] then some sampleLicense else none

/-- C1: for a stored record with matching hardware and unexpired license,
an `Unreachable` verify failure yields a valid result carrying the cached
`licenseInfo` when strictly fewer than 72 hours have elapsed since
`lastVerified`, an invalid "must reconnect" result when 72 hours or more
have elapsed, and exactly 72.0 elapsed hours counts as grace-expired. -/
theorem c1_offline_grace (lic : StoredLicense) (fileBefore : Option StoredLicense)
    (hw : String) (now : Int) (silent : Bool)
    (hhw : lic.hardwareId = hw) (hexp : now ≤ lic.licenseInfo.expires_at) :
    (now - lic.lastVerified < graceMs →
      (verifyLicense (some lic) fileBefore hw now VerifyNet.unreachable silent).result =
        ⟨true, "License valid (offline mode)", some lic.licenseInfo⟩) ∧
    (graceMs ≤ now - lic.lastVerified →
      (verifyLicense (some lic) fileBefore hw now VerifyNet.unreachable silent).result =
        ⟨false, "Unable to verify license. Please connect to the internet.", none⟩) ∧
    (now - lic.lastVerified = graceMs →
      (verifyLicense (some lic) fileBefore hw now
          VerifyNet.unreachable silent).result.valid = false) := by
  have hlt : ¬ lic.licenseInfo.expires_at < now := not_lt.mpr hexp
  refine ⟨?_, ?_, ?_⟩
  · intro h
    simp [verifyLicense, hhw, hlt, h]
  · intro h
    simp [verifyLicense, hhw, hlt, not_lt.mpr h]
  · intro h
    simp [verifyLicense, hhw, hlt, h]

/-- Witness for C1 at a concrete input (zero elapsed time, unexpired). -/
theorem c1_offline_grace_witness :
    (verifyLicense (some sampleLicense) none "H1" 1000
        VerifyNet.unreachable true).result =
      ⟨true, "License valid (offline mode)", some sampleInfo⟩ :=
  (c1_offline_grace sampleLicense none "H1" 1000 true rfl (by decide)).1 (by decide)

/-- C2: a stored record whose `hardwareId` differs from the current
machine fingerprint makes `verifyLicense` return the hardware-mismatch
invalid result with no server call, no deactivation, and unchanged state,
for every `silent` flag, time, network outcome, and cached info. -/
theorem c2_hardware_mismatch (lic : StoredLicense) (fileBefore : Option StoredLicense)
    (hw : String) (now : Int) (net : VerifyNet) (silent : Bool)
    (hhw : lic.hardwareId ≠ hw) :
    verifyLicense (some lic) fileBefore hw now net silent =
      ⟨⟨false, "License is bound to different hardware", none⟩,
        some lic, fileBefore, false, false⟩ := by
  simp [verifyLicense, hhw]

/-- Witness for C2: record bound to `"H1"`, current fingerprint `"H2"`. -/
theorem c2_hardware_mismatch_witness :
    verifyLicense (some sampleLicense) none "H2" 0 VerifyNet.unreachable true =
      ⟨⟨false, "License is bound to different hardware", none⟩,
        some sampleLicense, none, false, false⟩ :=
  c2_hardware_mismatch sampleLicense none "H2" 0 VerifyNet.unreachable true (by decide)

/-- C3 counterexample: the source checks `expiryDate < new Date()`, so at
`now` exactly equal to `expires_at` (here both 1000) the record is NOT
treated as expired — `verifyLicense` proceeds to the server call and, via
offline grace, even returns valid — although the claim requires an
invalid expiry result without a server call whenever `now` is at or past
`expires_at`. -/
theorem c3_expiry_counterexample :
    sampleLicense.hardwareId = "H1" ∧
    sampleLicense.licenseInfo.expires_at ≤ 1000 ∧
    (verifyLicense (some sampleLicense) none "H1" 1000
        VerifyNet.unreachable false).result.valid = true ∧
    (verifyLicense (some sampleLicense) none "H1" 1000
        VerifyNet.unreachable false).serverCalled = true := by
  exact ⟨rfl, by decide, by decide, by decide⟩

/-- C3 (amended): with matching hardware, whenever `now` is strictly past
`info.expires_at` the verify result is the invalid expiry message with no
server call and no deactivation, for every network outcome and `silent`
flag, never overridden by offline grace; at `now` equal to `expires_at`
the local expiry check still passes and the server is contacted. -/
theorem c3_expiry (lic : StoredLicense) (fileBefore : Option StoredLicense)
    (hw : String) (now : Int) (net : VerifyNet) (silent : Bool)
    (hhw : lic.hardwareId = hw) :
    (lic.licenseInfo.expires_at < now →
      verifyLicense (some lic) fileBefore hw now net silent =
        ⟨⟨false, "License has expired", none⟩, some lic, fileBefore, false, false⟩) ∧
    (now ≤ lic.licenseInfo.expires_at →
      (verifyLicense (some lic) fileBefore hw now net silent).serverCalled = true) := by
  constructor
  · intro h
    simp [verifyLicense, hhw, h]
  · intro h
    have hlt : ¬ lic.licenseInfo.expires_at < now := not_lt.mpr h
    cases net with
    | success data => simp [verifyLicense, hhw, hlt]
    | rejected msg => cases silent <;> simp [verifyLicense, hhw, hlt]
    | invalid404 msg => simp [verifyLicense, hhw, hlt]
    | unreachable =>
        by_cases hg : now - lic.lastVerified < graceMs <;>
          simp [verifyLicense, hhw, hlt, hg]

/-- Witness for C3 (amended): expiry 1000, current time 2000. -/
theorem c3_expiry_witness :
    verifyLicense (some sampleLicense) none "H1" 2000 VerifyNet.unreachable false =
      ⟨⟨false, "License has expired", none⟩, some sampleLicense, none, false, false⟩ :=
  (c3_expiry sampleLicense none "H1" 2000 VerifyNet.unreachable false rfl).1 (by decide)

/-- C4: with matching hardware and unexpired license, a `success: false`
server response makes non-silent verify clear both the in-memory state
and the persisted record (deactivation) before returning invalid with the
server's message, while silent verify returns the same invalid result
with no deactivation and unchanged state. -/
theorem c4_server_rejected (lic : StoredLicense) (fileBefore : Option StoredLicense)
    (hw : String) (now : Int) (msg : Option String)
    (hhw : lic.hardwareId = hw) (hexp : now ≤ lic.licenseInfo.expires_at) :
    (verifyLicense (some lic) fileBefore hw now (VerifyNet.rejected msg) false =
      ⟨⟨false, jsOr msg "License verification failed", none⟩,
        none, none, true, true⟩) ∧
    (verifyLicense (some lic) fileBefore hw now (VerifyNet.rejected msg) true =
      ⟨⟨false, jsOr msg "License verification failed", none⟩,
        some lic, fileBefore, true, false⟩) := by
  have hlt : ¬ lic.licenseInfo.expires_at < now := not_lt.mpr hexp
  exact ⟨by simp [verifyLicense, hhw, hlt], by simp [verifyLicense, hhw, hlt]⟩

/-- Witness for C4 at a concrete input with server message "Revoked". -/
theorem c4_server_rejected_witness :
    verifyLicense (some sampleLicense) (some sampleLicense) "H1" 500
        (VerifyNet.rejected (some "Revoked")) false =
      ⟨⟨false, "Revoked", none⟩, none, none, true, true⟩ :=
  (c4_server_rejected sampleLicense (some sampleLicense) "H1" 500
    (some "Revoked") rfl (by decide)).1

/-- C6: with matching hardware and unexpired license, a thrown verify
error whose response is HTTP 404 with code `"INVALID"` makes verify
return invalid carrying the server-supplied message (with the
`"Invalid license"` fallback for an absent or empty message), with no
deactivation, unchanged state, and no offline-grace fallback, for both
silent and non-silent calls and regardless of `lastVerified`. -/
theorem c6_invalid404 (lic : StoredLicense) (fileBefore : Option StoredLicense)
    (hw : String) (now : Int) (msg : Option String) (silent : Bool)
    (hhw : lic.hardwareId = hw) (hexp : now ≤ lic.licenseInfo.expires_at) :
    verifyLicense (some lic) fileBefore hw now (VerifyNet.invalid404 msg) silent =
      ⟨⟨false, jsOr msg "Invalid license", none⟩,
        some lic, fileBefore, true, false⟩ := by
  simp [verifyLicense, hhw, not_lt.mpr hexp]

/-- Witness for C6: concrete 404/INVALID response inside the grace
window (zero elapsed time), still invalid. -/
theorem c6_invalid404_witness :
    verifyLicense (some sampleLicense) none "H1" 1000
        (VerifyNet.invalid404 (some "License not found")) true =
      ⟨⟨false, "License not found", none⟩, some sampleLicense, none, true, false⟩ :=
  c6_invalid404 sampleLicense none "H1" 1000 (some "License not found") true
    rfl (by decide)

/-- C8: `loadStoredLicense` yields the absent state (`none`) on a missing
file, on a file `decrypt` rejects (non-hex or odd-length input, length
not a block multiple, or bad padding), and on decrypted bytes that fail
to parse as a record — never an error. -/
theorem c8_load_corrupt :
    (∀ (D : List Nat → List Nat) (des : List Nat → Option StoredLicense),
      loadStoredLicense D des none = none) ∧
    (∀ (D : List Nat → List Nat) (des : List Nat → Option StoredLicense)
        (ct : List Char), decrypt D ct = none →
      loadStoredLicense D des (some ct) = none) ∧
    (∀ (D : List Nat → List Nat) (des : List Nat → Option StoredLicense)
        (ct : List Char) (bytes : List Nat),
      decrypt D ct = some bytes → des bytes = none →
      loadStoredLicense D des (some ct) = none) := by
  refine ⟨fun D des => rfl, fun D des ct h => ?_, fun D des ct bytes h1 h2 => ?_⟩
  · simp [loadStoredLicense, h]
  · simp [loadStoredLicense, h1, h2]

/-- Witness for C8: a one-character (odd-length, non-hex) file is
corrupt, and the manager proceeds with no stored license. -/
theorem c8_load_corrupt_witness :
    loadStoredLicense (fun b => b) (fun _ => none) (some ['z']) = none :=
  c8_load_corrupt.2.1 (fun b => b) (fun _ => none) ['z'] (by decide)

/-- C5: deactivation is idempotent — from an activated state one call
clears the persisted record and a second call still leaves none; with no
prior activation (no in-memory record, no file) the call resolves with a
structured result and leaves no persisted record; and the outcome never
depends on whether the best-effort server notification succeeded. -/
theorem c5_deactivate_idempotent :
    (∀ (lic : StoredLicense) (fileBefore : Option StoredLicense) (ok1 ok2 : Bool),
      (deactivateLicense (some lic) fileBefore ok1).file = none ∧
      (deactivateLicense (some lic) fileBefore ok1).success = true ∧
      (deactivateLicense (deactivateLicense (some lic) fileBefore ok1).license
          (deactivateLicense (some lic) fileBefore ok1).file ok2).file = none) ∧
    (∀ ok : Bool,
      deactivateLicense none none ok = ⟨false, "No license found", none, none⟩) ∧
    (∀ (stored fileBefore : Option StoredLicense) (ok1 ok2 : Bool),
      deactivateLicense stored fileBefore ok1 = deactivateLicense stored fileBefore ok2) := by
  refine ⟨fun lic fb ok1 ok2 => ⟨rfl, rfl, rfl⟩, fun ok => rfl, fun s fb ok1 ok2 => ?_⟩
  cases s <;> rfl

/-- C9: `hasFeature` on an unactivated installation returns `false` for
every feature name, including the empty string, and with a stored record
it returns `true` exactly when the name is in the cached feature list. -/
theorem c9_hasFeature :
    (∀ f : String, hasFeature none f = false) ∧
    hasFeature none "" = false ∧
    (∀ (lic : StoredLicense) (f : String),
      hasFeature (some lic) f = true ↔ f ∈ lic.licenseInfo.features) := by
  refine ⟨fun f => rfl, rfl, fun lic f => ?_⟩
  simp [hasFeature]

/-- C10: `needsRenewal` returns `false` with no stored record; with a
record it returns exactly `days_remaining ≤ threshold`; the source's
default threshold is 30; and the result never depends on `expires_at`. -/
theorem c10_needsRenewal :
    (∀ t : Int, needsRenewal none t = false) ∧
    (∀ (lic : StoredLicense) (t : Int),
      needsRenewal (some lic) t = decide (lic.licenseInfo.days_remaining ≤ t)) ∧
    (∀ stored : Option StoredLicense,
      needsRenewalDefault stored = needsRenewal stored 30) ∧
    (∀ (lic : StoredLicense) (e t : Int),
      needsRenewal
          (some { lic with licenseInfo := { lic.licenseInfo with expires_at := e } }) t =
        needsRenewal (some lic) t) :=
  ⟨fun _ => rfl, fun _ _ => rfl, fun _ => rfl, fun _ _ _ => rfl⟩

/-- Length of a bytewise XOR. -/
theorem length_byteXor (a b : List Nat) :
    (byteXor a b).length = min a.length b.length := by
  simp [byteXor]

/-- XOR with the same block twice is the identity (on equal lengths). -/
theorem byteXor_cancel (a : List Nat) :
    ∀ b : List Nat, a.length = b.length → byteXor (byteXor a b) b = a := by
  induction a with
  | nil => intro b _; rfl
  | cons x xs ih =>
      intro b h
      cases b with
      | nil => simp at h
      | cons y ys =>
          have hx : x ^^^ y ^^^ y = x := by
            rw [Nat.xor_assoc, Nat.xor_self, Nat.xor_zero]
          simp only [byteXor, List.zipWith_cons_cons] at *
          rw [hx, ih ys (by simpa using h)]

/-- Bytewise XOR preserves the byte range. -/
theorem byteXor_lt (a : List Nat) :
    ∀ b : List Nat, (∀ x ∈ a, x < 256) → (∀ x ∈ b, x < 256) →
      ∀ x ∈ byteXor a b, x < 256 := by
  have h256 : (256 : ℕ) = 2 ^ 8 := by norm_num
  induction a with
  | nil => intro b _ _ x hx; simp [byteXor] at hx
  | cons y ys ih =>
      intro b ha hb x hx
      cases b with
      | nil => simp [byteXor] at hx
      | cons z zs =>
          simp only [byteXor, List.zipWith_cons_cons, List.mem_cons] at hx
          rcases hx with rfl | hx
          · have h1 : y < 256 := ha y (by simp)
            have h2 : z < 256 := hb z (by simp)
            exact h256 ▸ Nat.xor_lt_two_pow (h256 ▸ h1) (h256 ▸ h2)
          · exact ih zs (fun u hu => ha u (by simp [hu]))
              (fun u hu => hb u (by simp [hu])) x hx

/-- Unfolding equation for `chunk16` on a nonempty list. -/
theorem chunk16_eq (bs : List Nat) (h : bs ≠ []) :
    chunk16 bs = bs.take 16 :: chunk16 (bs.drop 16) := by
  cases bs with
  | nil => exact absurd rfl h
  | cons b rest => rw [chunk16]

/-- Flattening the 16-byte chunks recovers the byte sequence. -/
theorem flatten_chunk16 (bs : List Nat) : (chunk16 bs).flatten = bs := by
  induction bs using chunk16.induct with
  | case1 => simp [chunk16]
  | case2 b rest ih =>
      rw [chunk16_eq _ (by simp), List.flatten_cons, ih]
      exact List.take_append_drop 16 (b :: rest)

/-- With a length that is a multiple of 16, every chunk has length 16. -/
theorem chunk16_mem_length (bs : List Nat) :
    bs.length % 16 = 0 → ∀ b ∈ chunk16 bs, b.length = 16 := by
  induction bs using chunk16.induct with
  | case1 => intro _ b hb; simp [chunk16] at hb
  | case2 x rest ih =>
      intro hmod b hb
      have hlen : 16 ≤ (x :: rest).length := by
        rcases Nat.lt_or_ge (x :: rest).length 16 with hlt | hge
        · rw [Nat.mod_eq_of_lt hlt] at hmod
          simp at hmod
        · exact hge
      rw [chunk16_eq _ (by simp)] at hb
      rcases List.mem_cons.mp hb with rfl | hb
      · rw [List.length_take]
        exact Nat.min_eq_left hlen
      · refine ih ?_ b hb
        rw [List.length_drop]
        omega

/-- Chunk members are members of the original byte sequence. -/
theorem chunk16_mem_mem (bs : List Nat) :
    ∀ b ∈ chunk16 bs, ∀ x ∈ b, x ∈ bs := by
  induction bs using chunk16.induct with
  | case1 => intro b hb; simp [chunk16] at hb
  | case2 y rest ih =>
      intro b hb x hx
      rw [chunk16_eq _ (by simp)] at hb
      rcases List.mem_cons.mp hb with rfl | hb
      · exact List.mem_of_mem_take hx
      · exact List.mem_of_mem_drop (ih b hb x hx)

/-- Chunking is the inverse of flattening on lists of 16-byte blocks. -/
theorem chunk16_flatten (blocks : List (List Nat))
    (h : ∀ b ∈ blocks, b.length = 16) : chunk16 blocks.flatten = blocks := by
  induction blocks with
  | nil => simp [chunk16]
  | cons b rest ih =>
      have hb : b.length = 16 := h b (by simp)
      have hne : b ++ rest.flatten ≠ [] := by
        intro hc
        have hlen : (b ++ rest.flatten).length = 0 := by rw [hc]; rfl
        simp [hb] at hlen
      rw [List.flatten_cons, chunk16_eq _ hne, List.take_left' hb, List.drop_left' hb,
        ih (fun u hu => h u (by simp [hu]))]

/-- Ciphertext blocks produced by CBC encryption keep length 16 and the
byte range, given a well-behaved block permutation. -/
theorem cbcEncrypt_mem (E : List Nat → List Nat)
    (hElen : ∀ b, b.length = 16 → (E b).length = 16)
    (hEbyte : ∀ b, b.length = 16 → (∀ x ∈ b, x < 256) → ∀ x ∈ E b, x < 256) :
    ∀ (blocks : List (List Nat)) (prev : List Nat),
      prev.length = 16 → (∀ x ∈ prev, x < 256) →
      (∀ b ∈ blocks, b.length = 16) → (∀ b ∈ blocks, ∀ x ∈ b, x < 256) →
      ∀ c ∈ cbcEncrypt E prev blocks, c.length = 16 ∧ ∀ x ∈ c, x < 256 := by
  intro blocks
  induction blocks with
  | nil => intro prev _ _ _ _ c hc; simp [cbcEncrypt] at hc
  | cons b bs ih =>
      intro prev hpl hpb hbl hbb c hc
      have hb16 : b.length = 16 := hbl b (by simp)
      have hxl : (byteXor b prev).length = 16 := by
        rw [length_byteXor, hb16, hpl]
        rfl
      have hcl : (E (byteXor b prev)).length = 16 := hElen _ hxl
      have hcb : ∀ x ∈ E (byteXor b prev), x < 256 :=
        hEbyte _ hxl (byteXor_lt b prev (hbb b (by simp)) hpb)
      simp only [cbcEncrypt, List.mem_cons] at hc
      rcases hc with rfl | hc
      · exact ⟨hcl, hcb⟩
      · exact ih (E (byteXor b prev)) hcl hcb (fun u hu => hbl u (by simp [hu]))
          (fun u hu => hbb u (by simp [hu])) c hc

/-- CBC decryption with the inverse permutation undoes CBC encryption. -/
theorem cbc_roundtrip (E D : List Nat → List Nat)
    (hElen : ∀ b, b.length = 16 → (E b).length = 16)
    (hD : ∀ b, b.length = 16 → D (E b) = b) :
    ∀ (blocks : List (List Nat)) (prev : List Nat),
      prev.length = 16 → (∀ b ∈ blocks, b.length = 16) →
      cbcDecrypt D prev (cbcEncrypt E prev blocks) = blocks := by
  intro blocks
  induction blocks with
  | nil => intro prev _ _; rfl
  | cons b bs ih =>
      intro prev hpl hbl
      have hb16 : b.length = 16 := hbl b (by simp)
      have hxl : (byteXor b prev).length = 16 := by
        rw [length_byteXor, hb16, hpl]
        rfl
      simp only [cbcEncrypt, cbcDecrypt]
      rw [hD _ hxl, byteXor_cancel b prev (hb16.trans hpl.symm),
        ih (E (byteXor b prev)) (hElen _ hxl) (fun u hu => hbl u (by simp [hu]))]

/-- Flattening 16-byte blocks gives a length that is a multiple of 16. -/
theorem flatten_length_mod (blocks : List (List Nat))
    (h : ∀ b ∈ blocks, b.length = 16) : blocks.flatten.length % 16 = 0 := by
  induction blocks with
  | nil => rfl
  | cons b bs ih =>
      have hb : b.length = 16 := h b (by simp)
      have hrest := ih (fun u hu => h u (by simp [hu]))
      rw [List.flatten_cons, List.length_append, hb]
      omega

/-- Members of a flattened block list stay in the byte range. -/
theorem flatten_mem_lt (blocks : List (List Nat))
    (h : ∀ b ∈ blocks, ∀ x ∈ b, x < 256) : ∀ x ∈ blocks.flatten, x < 256 := by
  intro x hx
  rcases List.mem_flatten.mp hx with ⟨s, hs, hxs⟩
  exact h s hs x hxs

/-- Hex digits decode back to their value. -/
theorem hexVal_hexDigit : ∀ n : Nat, n < 16 → hexVal (hexDigit n) = some n := by
  decide

/-- Hex decoding inverts hex encoding on byte sequences. -/
theorem hexDecode_hexEncode (bs : List Nat) (h : ∀ x ∈ bs, x < 256) :
    hexDecode (hexEncode bs) = some bs := by
  induction bs with
  | nil => rfl
  | cons b rest ih =>
      have hb : b < 256 := h b (by simp)
      have h1 : b / 16 < 16 := Nat.div_lt_of_lt_mul (by omega)
      have h2 : b % 16 < 16 := Nat.mod_lt b (by norm_num)
      have hrest := ih (fun u hu => h u (by simp [hu]))
      show hexDecode (hexDigit (b / 16) :: hexDigit (b % 16) :: hexEncode rest) =
        some (b :: rest)
      rw [hexDecode, hexVal_hexDigit _ h1, hexVal_hexDigit _ h2, hrest]
      simp [Nat.div_add_mod]

/-- Padded sequences have a length that is a multiple of 16. -/
theorem pkcs7pad_length_mod (bs : List Nat) : (pkcs7pad bs).length % 16 = 0 := by
  simp [pkcs7pad]
  omega

/-- Padding keeps bytes in range (padding bytes are at most 16). -/
theorem pkcs7pad_lt (bs : List Nat) (h : ∀ x ∈ bs, x < 256) :
    ∀ x ∈ pkcs7pad bs, x < 256 := by
  intro x hx
  rcases List.mem_append.mp hx with hx | hx
  · exact h x hx
  · rcases List.mem_replicate.mp hx with ⟨_, rfl⟩
    omega

/-- Unpadding inverts padding. -/
theorem pkcs7unpad_pad (bs : List Nat) : pkcs7unpad (pkcs7pad bs) = some bs := by
  have hr : bs.length % 16 < 16 := Nat.mod_lt _ (by norm_num)
  have hp1 : 1 ≤ 16 - bs.length % 16 := by omega
  have hp16 : 16 - bs.length % 16 ≤ 16 := by omega
  obtain ⟨n, hn⟩ : ∃ n, 16 - bs.length % 16 = n + 1 := ⟨16 - bs.length % 16 - 1, by omega⟩
  have hlast : (bs ++ List.replicate (16 - bs.length % 16) (16 - bs.length % 16)).getLast? =
      some (16 - bs.length % 16) := by
    rw [hn, List.replicate_succ', ← List.append_assoc]
    exact List.getLast?_concat _
  have hlen : (bs ++ List.replicate (16 - bs.length % 16) (16 - bs.length % 16)).length =
      bs.length + (16 - bs.length % 16) := by
    simp
  have hsub : bs.length + (16 - bs.length % 16) - (16 - bs.length % 16) = bs.length := by
    omega
  rw [pkcs7pad]
  simp only [pkcs7unpad, hlast]
  have hdrop : (bs ++ List.replicate (16 - bs.length % 16) (16 - bs.length % 16)).drop
        ((bs ++ List.replicate (16 - bs.length % 16) (16 - bs.length % 16)).length -
          (16 - bs.length % 16)) =
      List.replicate (16 - bs.length % 16) (16 - bs.length % 16) := by
    rw [hlen, hsub]
    exact List.drop_left bs _
  have hall : ((bs ++ List.replicate (16 - bs.length % 16) (16 - bs.length % 16)).drop
        ((bs ++ List.replicate (16 - bs.length % 16) (16 - bs.length % 16)).length -
          (16 - bs.length % 16))).all
        (fun x => x == 16 - bs.length % 16) = true := by
    rw [hdrop, List.all_eq_true]
    intro x hx
    rcases List.mem_replicate.mp hx with ⟨_, rfl⟩
    simp
  rw [if_pos ⟨hp1, hp16, by rw [hlen]; omega, hall⟩]
  rw [hlen, hsub]
  exact congrArg some (List.take_left bs _)

/-- Core storage round trip: `decrypt` inverts `encrypt` on every byte
sequence, given the AES-256 block permutation `E` (length-preserving and
byte-valued on 16-byte blocks) and its inverse `D`. -/
theorem decrypt_encrypt (E D : List Nat → List Nat)
    (hElen : ∀ b, b.length = 16 → (E b).length = 16)
    (hEbyte : ∀ b, b.length = 16 → (∀ x ∈ b, x < 256) → ∀ x ∈ E b, x < 256)
    (hD : ∀ b, b.length = 16 → D (E b) = b)
    (text : List Nat) (htext : ∀ x ∈ text, x < 256) :
    decrypt D (encrypt E text) = some text := by
  have hivl : theIV.length = 16 := by simp [theIV]
  have hivb : ∀ x ∈ theIV, x < 256 := by
    intro x hx
    rcases List.mem_replicate.mp hx with ⟨_, rfl⟩
    norm_num
  have hbl : ∀ b ∈ chunk16 (pkcs7pad text), b.length = 16 :=
    chunk16_mem_length _ (pkcs7pad_length_mod text)
  have hbb : ∀ b ∈ chunk16 (pkcs7pad text), ∀ x ∈ b, x < 256 :=
    fun b hb x hx => pkcs7pad_lt text htext x (chunk16_mem_mem _ b hb x hx)
  have hct := cbcEncrypt_mem E hElen hEbyte (chunk16 (pkcs7pad text)) theIV hivl hivb hbl hbb
  have hctl : ∀ c ∈ cbcEncrypt E theIV (chunk16 (pkcs7pad text)), c.length = 16 :=
    fun c hc => (hct c hc).1
  have hctb : ∀ x ∈ (cbcEncrypt E theIV (chunk16 (pkcs7pad text))).flatten, x < 256 :=
    flatten_mem_lt _ (fun c hc => (hct c hc).2)
  rw [encrypt]
  simp only [decrypt, hexDecode_hexEncode _ hctb]
  rw [if_pos (flatten_length_mod _ hctl), chunk16_flatten _ hctl,
    cbc_roundtrip E D hElen hD _ theIV hivl hbl, flatten_chunk16]
  exact pkcs7unpad_pad text

/-- C7: `save(record)` followed by `load()` returns the original record,
because `decrypt` inverts `encrypt` on the serialized bytes — the
AES-256-CBC / PKCS#7 / hex storage cycle is lossless.  `E`/`D` abstract
the keyed AES block permutation and its inverse; `ser`/`des` abstract the
JSON serialization of the record. -/
theorem c7_save_load_roundtrip (E D : List Nat → List Nat)
    (ser : StoredLicense → List Nat) (des : List Nat → Option StoredLicense)
    (record : StoredLicense)
    (hElen : ∀ b, b.length = 16 → (E b).length = 16)
    (hEbyte : ∀ b, b.length = 16 → (∀ x ∈ b, x < 256) → ∀ x ∈ E b, x < 256)
    (hD : ∀ b, b.length = 16 → D (E b) = b)
    (hser : ∀ x ∈ ser record, x < 256)
    (hdes : des (ser record) = some record) :
    loadStoredLicense D des (some (saveStoredLicense E ser record)) = some record ∧
    decrypt D (encrypt E (ser record)) = some (ser record) := by
  have hde := decrypt_encrypt E D hElen hEbyte hD (ser record) hser
  refine ⟨?_, hde⟩
  simp [loadStoredLicense, saveStoredLicense, hde, hdes]

/-- Witness for C7: identity block permutation, sample serializer, and
the sample record, evaluated through the whole pipeline. -/
theorem c7_save_load_roundtrip_witness :
    loadStoredLicense (fun b => b) sampleDes
        (some (saveStoredLicense (fun b => b) sampleSer sampleLicense)) =
      some sampleLicense :=
  (c7_save_load_roundtrip (fun b => b) (fun b => b) sampleSer sampleDes sampleLicense
    (fun _ h => h) (fun _ _ h => h) (fun _ _ => rfl) (by decide) (by decide)).1

end LicenseHandler
